import Mathlib

/-!
Verification of the opendatahub-tickets-dashboard core against its
natural-language specification.

Python strings are embedded as `List Char`; a nullable pandas cell
(a value that may be NaN/NaT) is embedded as an `Option`.  Machine
floats carrying elapsed hours are embedded as `ℚ` (the code only adds,
subtracts and divides by 60, so rationals are exact); the NaN produced
for missing timestamps is the `none` of an `Option ℚ`.
-/

/-- Whitespace test matching the character class stripped by the Python
`str.strip()` calls in `app/utils.py`. -/
def isSpaceChar (c : Char) : Bool :=
  c == ' ' || c == '\t' || c == '\n' || c == '\r' || c == '\x0b' || c == '\x0c'

/-- Embedding of Python `str.strip()` (`app/utils.py`, used on keys,
values and entries of the parsed response). -/
def pyStrip (s : List Char) : List Char :=
  ((s.dropWhile isSpaceChar).reverse.dropWhile isSpaceChar).reverse

/-- Embedding of `standardize_domain` from `app/sections/domains.py`:
a NaN domain becomes the fixed label, otherwise the value is split on
commas, the parts are sorted alphabetically, and rejoined with commas. -/
def standardize_domain (domain : Option (List Char)) : List Char :=
  match domain with
  | none => "Unknown Domain".toList
  | some d =>
      let domain_parts := d.splitOn ','
      [','].intercalate (domain_parts.mergeSort (fun a b => decide (a ≤ b)))

/-- Constant `HOURS_IN_A_DAY` from `app/sections/response_time.py`. -/
def HOURS_IN_A_DAY : ℚ := 24

/-- Constant `HOURS_IN_A_WEEK` from `app/sections/response_time.py`. -/
def HOURS_IN_A_WEEK : ℚ := 7 * HOURS_IN_A_DAY

/-- Embedding of `categorize_time` from `app/sections/response_time.py`.
The float argument `hours` is NaN exactly for missing timestamps
(`compute_business_hours` returns NaN only then), embedded as `none`. -/
def categorize_time (hours : Option ℚ) : String :=
  match hours with
  | none => "Not set"
  | some h =>
      if h ≤ 1 then "Within first hour"
      else if h ≤ HOURS_IN_A_DAY then "Within first day"
      else if h ≤ 2 * HOURS_IN_A_DAY then "Within first 2 days"
      else if h ≤ HOURS_IN_A_WEEK then "Within first week"
      else "More than a week"

/-- Embedding of Python `response.text.split('--')` in `fetch_data`
(`app/utils.py`): split a character list on every non-overlapping
occurrence of the two-character separator, scanning left to right. -/
def splitOnDashes : List Char → List (List Char)
  | [] => [[]]
  | '-' :: '-' :: rest => [] :: splitOnDashes rest
  | c :: rest => (splitOnDashes rest).modifyHead (c :: ·)

/-- Embedding of the per-line test and split in `fetch_data`
(`app/utils.py`): Python checks whether the line contains the
separator and then performs a single split at its first occurrence, so
both are captured by one function that returns the key/value pair at
the first occurrence, or nothing when the separator never occurs. -/
def splitFirstColonSpace : List Char → Option (List Char × List Char)
  | [] => none
  | ':' :: ' ' :: rest => some ([], rest)
  | c :: rest => (splitFirstColonSpace rest).map (fun p => (c :: p.1, p.2))

/-- Assignment into a Python dict, embedded on an insertion-ordered
association list: an existing key has its value replaced in place, a
new key is appended at the end. -/
def setEntry {K V : Type} [DecidableEq K] (k : K) (v : V) : List (K × V) → List (K × V)
  | [] => [(k, v)]
  | (k0, v0) :: rest => if k0 = k then (k, v) :: rest else (k0, v0) :: setEntry k v rest

/-- Lookup in a Python dict embedded as an association list. -/
def dictGet {K V : Type} [DecidableEq K] (k : K) : List (K × V) → Option V
  | [] => none
  | (k0, v0) :: rest => if k0 = k then some v0 else dictGet k rest

/-- One parsed ticket record: a Python dict from field name to value. -/
def Rec0 : Type := List (List Char × List Char)

instance : DecidableEq Rec0 := by unfold Rec0; exact inferInstance

/-- Embedding of the per-entry record construction loop in `fetch_data`
(`app/utils.py`): each line of the stripped entry either contributes a
stripped key/value pair to the dict or is skipped. -/
def buildRecord (lines : List (List Char)) : Rec0 :=
  lines.foldl
    (fun record line =>
      match splitFirstColonSpace line with
      | some kv => setEntry (pyStrip kv.1) (pyStrip kv.2) record
      | none => record)
    []

/-- Embedding of the response-parsing block of `fetch_data`
(`app/utils.py` lines 85-97): split the raw text on the `--`
delimiter, build a record from each stripped entry split on newlines,
and keep the record only when it is non-empty. -/
def parseResponse (text : List Char) : List Rec0 :=
  (splitOnDashes text).filterMap
    (fun entry =>
      let record := buildRecord ((pyStrip entry).splitOn '\n')
      if record = [] then none else some record)

/-- Decimal digit characters of a natural number, matching the Python
f-string rendering used for the year in the cache key. -/
def natChars (n : Nat) : List Char :=
  if n < 10 then [Nat.digitChar n]
  else natChars (n / 10) ++ [Nat.digitChar (n % 10)]
termination_by n
decreasing_by exact Nat.div_lt_self (by omega) (by omega)

/-- Decimal rendering of an integer as Python f-strings produce it. -/
def intChars (i : Int) : List Char :=
  if i < 0 then '-' :: natChars (-i).toNat else natChars i.toNat

/-- Embedding of the string handed to md5 in `get_cache_key`
(`app/utils.py`): the Python f-string joins year, query, fields and
the acting username with single underscores.  The md5 hexdigest applied
on top is a fixed deterministic function of this string, so equalities
between key strings transfer to equalities between cache keys, and the
cache-key model below uses the key string itself as the key. -/
def keyString (year : Int) (query fields username : List Char) : List Char :=
  intChars year ++ '_' :: (query ++ '_' :: (fields ++ '_' :: username))

/-- Embedding of the field-list fix-up at the top of `fetch_data`
(`app/utils.py` lines 56-57): append a trailing Created field when the
fields string does not already contain the substring. -/
def requestFields (fields : List Char) : List Char :=
  if "Created".toList <:+: fields then fields else fields ++ ",Created".toList

/-- Per-session state touched by `fetch_data`: the acting username and
the two cache dicts kept in `st.session_state` (`app/utils.py`). -/
structure SessionState where
  username : List Char
  data_cache : List (List Char × List Rec0)
  cache_timestamps : List (List Char × Int)

/-- Constant `CACHE_TTL_HOURS` from `app/utils.py`, in seconds; the
clock is embedded as an integer count of seconds. -/
def CACHE_TTL_SECONDS : Int := 3600

/-- Embedding of `is_cache_valid` from `app/utils.py`. -/
def is_cache_valid (st : SessionState) (cache_key : List Char) (now : Int) : Bool :=
  match dictGet cache_key st.cache_timestamps with
  | none => false
  | some cache_time => decide (now - cache_time < CACHE_TTL_SECONDS)

/-- Embedding of `get_cached_data` from `app/utils.py`; the pandas
defensive copy is the identity on the embedded value. -/
def get_cached_data (st : SessionState) (cache_key : List Char) (now : Int) :
    Option (List Rec0) :=
  match dictGet cache_key st.data_cache with
  | some df => if is_cache_valid st cache_key now then some df else none
  | none => none

/-- Embedding of `set_cached_data` from `app/utils.py`: store the table
under the key and record the current time as its timestamp. -/
def set_cached_data (st : SessionState) (cache_key : List Char) (df : List Rec0)
    (now : Int) : SessionState :=
  { st with
    data_cache := setEntry cache_key df st.data_cache
    cache_timestamps := setEntry cache_key now st.cache_timestamps }

/-- Embedding of `fetch_data` from `app/utils.py`.  The network is
externalised: `responseText` is the body the upstream POST returned,
`now` the clock reading.  The function returns the resulting table
together with the session state after the call. -/
def fetch_data (st : SessionState) (year : Int) (query fields : List Char)
    (use_cache : Bool) (responseText : List Char) (now : Int) :
    List Rec0 × SessionState :=
  let fields := requestFields fields
  let cache_key := keyString year query fields st.username
  match (if use_cache then get_cached_data st cache_key now else none) with
  | some cached_df => (cached_df, st)
  | none =>
      let df := parseResponse responseText
      if use_cache ∧ df ≠ [] then (df, set_cached_data st cache_key df now)
      else (df, st)

/-- Calendar timestamp, the embedding of a pandas `Timestamp` produced
by parsing a Created value with the fixed format
`%a %b %d %H:%M:%S %Y`; an unparseable value is coerced to NaT, which
is the `none` of an `Option DT`. -/
structure DT where
  year : Int
  month : Nat
  day : Nat
  hour : Nat
  minute : Nat
  second : Nat
deriving DecidableEq

/-- Strict chronological order on timestamps, which pandas compares
field-lexicographically from year down to second. -/
def dtLt (a b : DT) : Prop :=
  a.year < b.year ∨ (a.year = b.year ∧
    (a.month < b.month ∨ (a.month = b.month ∧
      (a.day < b.day ∨ (a.day = b.day ∧
        (a.hour < b.hour ∨ (a.hour = b.hour ∧
          (a.minute < b.minute ∨ (a.minute = b.minute ∧
            a.second < b.second)))))))))

/-- Non-strict chronological order on timestamps. -/
def dtLe (a b : DT) : Prop :=
  a.year < b.year ∨ (a.year = b.year ∧
    (a.month < b.month ∨ (a.month = b.month ∧
      (a.day < b.day ∨ (a.day = b.day ∧
        (a.hour < b.hour ∨ (a.hour = b.hour ∧
          (a.minute < b.minute ∨ (a.minute = b.minute ∧
            a.second ≤ b.second)))))))))

instance (a b : DT) : Decidable (dtLt a b) := by unfold dtLt; exact inferInstance

instance (a b : DT) : Decidable (dtLe a b) := by unfold dtLe; exact inferInstance

/-- One row of a fetched table as the Quarter Filter sees it: the
Created cell after datetime parsing (NaT for unparseable values) plus
an identifier standing for all the other columns of the row. -/
structure DTicket where
  id : Nat
  created : Option DT
deriving DecidableEq

/-- A fetched table as the Quarter Filter sees it: whether the Created
column exists at all, and the rows.  `filter_df_by_quarter` converts a
non-datetime Created column with the fixed format and coerce semantics
before masking, and every caller in `app/sections` pre-converts the
same way, so rows always carry the post-parse `Option DT` value. -/
structure DTable where
  hasCreated : Bool
  rows : List DTicket
deriving DecidableEq

/-- Gregorian leap-year rule, as `pandas`/`datetime` date arithmetic
implements it. -/
def isLeap (y : Int) : Bool := (y % 4 == 0 && y % 100 != 0) || y % 400 == 0

/-- Length of a calendar month. -/
def daysInMonth (y : Int) (m : Nat) : Nat :=
  if m = 2 then (if isLeap y then 29 else 28)
  else if m = 4 ∨ m = 6 ∨ m = 9 ∨ m = 11 then 30
  else 31

/-- Embedding of `end_date + timedelta(days=1)` in
`filter_df_by_quarter` (`app/utils.py` line 134) on a calendar date. -/
def addOneDay : Int × Nat × Nat → Int × Nat × Nat
  | (y, m, d) =>
      if d < daysInMonth y m then (y, m, d + 1)
      else if m < 12 then (y, m + 1, 1)
      else (y + 1, 1, 1)

/-- Midnight timestamp of a calendar date, the value
`pd.to_datetime` gives a plain `YYYY-MM-DD` string. -/
def dtOfDate : Int × Nat × Nat → DT
  | (y, m, d) => ⟨y, m, d, 0, 0, 0⟩

/-- Embedding of `get_quarter_date_range` from `app/utils.py`: the
dict lookup with `.get` returns the start and end date of the quarter,
or nothing for any key other than 1, 2, 3, 4. -/
def get_quarter_date_range (year : Int) (quarter : Int) :
    Option ((Int × Nat × Nat) × (Int × Nat × Nat)) :=
  if quarter = 1 then some ((year, 1, 1), (year, 3, 31))
  else if quarter = 2 then some ((year, 4, 1), (year, 6, 30))
  else if quarter = 3 then some ((year, 7, 1), (year, 9, 30))
  else if quarter = 4 then some ((year, 10, 1), (year, 12, 31))
  else none

/-- Mask applied to one Created cell by `filter_df_by_quarter`: a
pandas comparison against NaT is false, so only parsed values inside
the half-open range pass. -/
def inCreatedRange (s e : DT) : Option DT → Bool
  | none => false
  | some d => decide (dtLe s d) && decide (dtLt d e)

/-- Embedding of `filter_df_by_quarter` from `app/utils.py`.  The
result is `none` when the Python function raises: unpacking the `None`
returned by `get_quarter_date_range` for an invalid quarter is a
`TypeError`.  An empty frame is returned unchanged, a frame without
the date column is emptied, otherwise the rows are masked by the
half-open interval from the quarter start to the day after the quarter
end. -/
def filter_df_by_quarter (df : DTable) (year : Int) (quarter : Int) : Option DTable :=
  if df.rows = [] then some df
  else if df.hasCreated = false then some ⟨df.hasCreated, []⟩
  else
    match get_quarter_date_range year quarter with
    | none => none
    | some r =>
        let start_date := dtOfDate r.1
        let end_date := dtOfDate (addOneDay r.2)
        some ⟨df.hasCreated, df.rows.filter (fun t => inCreatedRange start_date end_date t.created)⟩

/-- Rows of the quarter-filtered table, empty when the filter raised. -/
def quarterRows (df : DTable) (year : Int) (quarter : Int) : List DTicket :=
  ((filter_df_by_quarter df year quarter).getD ⟨false, []⟩).rows

/-- Rows whose Created value parsed under the fixed timestamp format. -/
def parseableRows (df : DTable) : List DTicket :=
  df.rows.filter (fun t => t.created.isSome)

/-- Modelled from the spec: the upstream search service is not part of
this repository, and section 4.2 of the specification states that the
table fetched for a year contains exactly the tickets whose Created
value satisfies the literal predicate sent in the query,
strictly between midnight of December 31 of the previous year and
midnight of January 1 of the following year (section 9 notes this
window is deliberately wider than the calendar year).  A table is a
plausible fetch result for a year when every parsed Created value lies
in that open window. -/
def fetchedForYear (df : DTable) (year : Int) : Bool :=
  df.rows.all
    (fun t =>
      match t.created with
      | none => true
      | some d =>
          decide (dtLt ⟨year - 1, 12, 31, 0, 0, 0⟩ d) &&
          decide (dtLt d ⟨year + 1, 1, 1, 0, 0, 0⟩))

/-- A present timestamp for `compute_business_hours`
(`app/sections/response_time.py`), in a day-resolved form: the day as
a count of days since the epoch (1970-01-01, a Thursday) and the time
of day in seconds.  Every real datetime has exactly one such form with
the seconds in `[0, 86400)`; `date()` is the day component,
`datetime.combine(day, time.min)` is second zero of a day, and the
subtraction `total_seconds()` of two timestamps is the day difference
times 86400 plus the seconds difference. -/
structure TS where
  day : Int
  sec : ℚ
deriving DecidableEq

/-- Chronological order on timestamps (`start >= end` in the code):
lexicographic on day then second of day. -/
def tsLe (a b : TS) : Prop := a.day < b.day ∨ (a.day = b.day ∧ a.sec ≤ b.sec)

instance (a b : TS) : Decidable (tsLe a b) := by unfold tsLe; exact inferInstance

/-- Python `weekday() < 5` test on an epoch day: day 0 is a Thursday,
so the Monday-based weekday index is the day plus 3, modulo 7. -/
def isWorkday (day : Int) : Bool := decide ((day + 3) % 7 < 5)

/-- Business-day test of `compute_business_hours`: a weekday that is
not an Italian public holiday.  The holiday calendar comes from the
external `holidays` library; it is embedded as an abstract set of epoch
days.  The code builds the calendar only for the years between the two
timestamps, but every day it queries lies in those years, so queries
against the abstract full calendar agree. -/
def isBusinessDay (holiday : Int → Bool) (day : Int) : Bool :=
  isWorkday day && !holiday day

/-- Full days strictly between two days that count as business days,
the embedding of the while loop of `compute_business_hours`. -/
def businessDaysBetween (holiday : Int → Bool) (lo hi : Int) : Nat :=
  (((List.range (hi - lo).toNat).map (fun i => lo + i)).filter (isBusinessDay holiday)).length

/-- Embedding of `compute_business_hours` from
`app/sections/response_time.py`: NaN (`none`) when either timestamp is
missing, zero when the start is not before the end, otherwise the
elapsed business minutes across the start-day/full-days/end-day
decomposition, divided by 60 into hours. -/
def compute_business_hours (holiday : Int → Bool) (start stop : Option TS) : Option ℚ :=
  match start, stop with
  | none, _ => none
  | some _, none => none
  | some s, some e =>
      if tsLe e s then some 0
      else if s.day = e.day then
        some ((if isBusinessDay holiday s.day then (e.sec - s.sec) / 60 else 0) / 60)
      else
        let firstDayMinutes : ℚ :=
          if isBusinessDay holiday s.day then (86400 - s.sec) / 60 else 0
        let lastDayMinutes : ℚ :=
          if isBusinessDay holiday e.day then (e.sec - 0) / 60 else 0
        let fullDaysMinutes : ℚ :=
          (businessDaysBetween holiday (s.day + 1) e.day : ℚ) * (24 * 60)
        some ((firstDayMinutes + lastDayMinutes + fullDaysMinutes) / 60)

/-- One row of a table fetched for the customer overview
(`app/sections/customer_overview.py`): the company-name custom field
(NaN-able) and the parsed Created value used by the quarter-mode month
filter. -/
structure CRow where
  company : Option String
  created : Option DT
deriving DecidableEq

/-- A table fetched for the customer overview: whether the Created
column exists, and the rows. -/
structure CTable where
  hasCreated : Bool
  rows : List CRow

/-- Distinct keys of `process_companies_data`
(`app/sections/customer_overview.py`): the defaultdict counts every
non-NaN company cell, so its key set is the set of company names that
occur in the table. -/
def process_companies_keys (rows : List CRow) : Finset String :=
  rows.foldl
    (fun s r => match r.company with | some c => insert c s | none => s) ∅

/-- Constant `START_YEAR` from `app/sections/customer_overview.py`. -/
def START_YEAR : Int := 2018

/-- Embedding of Python `range(a, b)` over integers. -/
def intRange (a b : Int) : List Int :=
  (List.range (b - a).toNat).map (fun (i : Nat) => a + (i : Int))

/-- Period selection handed to `fetch_all_previous_companies`: a bare
year in years mode, or a year and quarter in quarters mode. -/
inductive PeriodSel : Type
  | years (year : Int)
  | quarters (year : Int) (quarter : Int)

/-- Embedding of `fetch_all_previous_companies` from
`app/sections/customer_overview.py`.  The network is externalised:
`fetch` gives the table that `fetch_data` returns for a year under the
configured query and fields.  Years mode accumulates the company sets
of all years from the start year up to the current one; quarters mode
additionally adds, when the quarter is beyond the first, the companies
of current-year tickets created in a month before the quarter start
month. -/
def fetch_all_previous_companies (fetch : Int → CTable) : PeriodSel → Finset String
  | .years current_year =>
      (intRange START_YEAR current_year).foldl
        (fun previous_companies year =>
          let df := fetch year
          if df.rows ≠ [] then previous_companies ∪ process_companies_keys df.rows
          else previous_companies)
        ∅
  | .quarters current_year current_quarter =>
      let afterYears :=
        (intRange START_YEAR current_year).foldl
          (fun previous_companies year =>
            let df := fetch year
            if df.rows ≠ [] then previous_companies ∪ process_companies_keys df.rows
            else previous_companies)
          ∅
      if 1 < current_quarter then
        let df := fetch current_year
        if df.rows ≠ [] ∧ df.hasCreated = true then
          let start_month_current : Int := (current_quarter - 1) * 3 + 1
          let df_prev := df.rows.filter
            (fun r =>
              match r.created with
              | some d => decide ((d.month : Int) < start_month_current)
              | none => false)
          afterYears ∪ process_companies_keys df_prev
        else afterYears
      else afterYears

/-- The new-customer set displayed by the customer overview page in
years mode (`app/sections/customer_overview.py` lines 179-182): the
companies of the year minus all previously seen companies. -/
def new_companies_for_year (fetch : Int → CTable) (year : Int) : Finset String :=
  process_companies_keys (fetch year).rows \
    fetch_all_previous_companies fetch (.years year)

/-- Concrete one-row table whose ticket was created at noon on
December 31 of the year before the fetch year: the upstream year
predicate admits it, its Created value parses, yet it belongs to no
quarter of the fetch year. -/
def boundaryDf : DTable := ⟨true, [⟨0, some ⟨2022, 12, 31, 12, 0, 0⟩⟩]⟩

/-- Concrete upstream for the new-customer example: companies A and B
in 2023, companies B and C in 2024, nothing anywhere else. -/
def exampleFetch : Int → CTable := fun year =>
  if year = 2023 then
    ⟨true, [⟨some "A", some ⟨2023, 2, 1, 9, 0, 0⟩⟩, ⟨some "B", some ⟨2023, 5, 1, 9, 0, 0⟩⟩]⟩
  else if year = 2024 then
    ⟨true, [⟨some "B", some ⟨2024, 1, 10, 9, 0, 0⟩⟩, ⟨some "C", some ⟨2024, 6, 2, 9, 0, 0⟩⟩]⟩
  else ⟨true, []⟩

/-- Concrete session state with an empty cache, for exercising the
fetch and cache theorems. -/
def exampleState : SessionState := ⟨"alice".toList, [], []⟩

/-- Concrete one-row table whose ticket was created in mid May of the
fetch year, squarely inside the second quarter. -/
def inYearDf : DTable := ⟨true, [⟨1, some ⟨2023, 5, 15, 10, 0, 0⟩⟩]⟩

/-- Concrete upstream response body with one record of one field. -/
def exampleResponse : List Char := "id: 77".toList

/-- C2: response-time categorization is total with the exact
thresholds: NaN goes to Not set, the five numeric buckets are
characterized by the half-open threshold intervals, every input lands
in one of the six fixed categories, and the boundary values 1.0 and
168.0 land in Within first hour and Within first week. -/
theorem categorize_time_spec :
    categorize_time none = "Not set" ∧
    (∀ h : ℚ,
      (categorize_time (some h) = "Within first hour" ↔ h ≤ 1) ∧
      (categorize_time (some h) = "Within first day" ↔ (1 < h ∧ h ≤ 24)) ∧
      (categorize_time (some h) = "Within first 2 days" ↔ (24 < h ∧ h ≤ 48)) ∧
      (categorize_time (some h) = "Within first week" ↔ (48 < h ∧ h ≤ 168)) ∧
      (categorize_time (some h) = "More than a week" ↔ 168 < h)) ∧
    (∀ hours : Option ℚ,
      categorize_time hours = "Not set" ∨ categorize_time hours = "Within first hour" ∨
      categorize_time hours = "Within first day" ∨
      categorize_time hours = "Within first 2 days" ∨
      categorize_time hours = "Within first week" ∨
      categorize_time hours = "More than a week") ∧
    categorize_time (some 1) = "Within first hour" ∧
    categorize_time (some 168) = "Within first week" := by
  refine ⟨rfl, ?_, ?_, by norm_num [categorize_time],
    by norm_num [categorize_time, HOURS_IN_A_DAY, HOURS_IN_A_WEEK]⟩
  · intro h
    simp only [categorize_time, HOURS_IN_A_DAY, HOURS_IN_A_WEEK]
    norm_num
    split_ifs with h1 h2 h3 h4 <;>
      refine ⟨?_, ?_, ?_, ?_, ?_⟩ <;> simp <;>
      first
        | linarith
        | (intro hx; linarith)
        | (constructor <;> linarith)
  · intro hours
    match hours with
    | none => left; rfl
    | some h =>
        simp only [categorize_time]
        split_ifs <;> simp

/-- C9: for a quarter outside 1..4, the quarter range lookup yields
nothing, and on a non-empty table carrying the date column the filter
raises (embedded as the none result) instead of returning an empty
table. -/
theorem filter_invalid_quarter (year quarter : Int)
    (h1 : quarter ≠ 1) (h2 : quarter ≠ 2) (h3 : quarter ≠ 3) (h4 : quarter ≠ 4) :
    get_quarter_date_range year quarter = none ∧
    ∀ df : DTable, df.rows ≠ [] → df.hasCreated = true →
      filter_df_by_quarter df year quarter = none := by
  have hr : get_quarter_date_range year quarter = none := by
    simp [get_quarter_date_range, h1, h2, h3, h4]
  refine ⟨hr, fun df hne hc => ?_⟩
  simp [filter_df_by_quarter, hne, hc, hr]

/-- Witness for C9 at quarter 5 on a concrete one-row table. -/
theorem filter_invalid_quarter_witness :
    get_quarter_date_range 2023 5 = none ∧
    filter_df_by_quarter ⟨true, [⟨0, none⟩]⟩ 2023 5 = none := by
  have h := filter_invalid_quarter 2023 5 (by decide) (by decide) (by decide) (by decide)
  exact ⟨h.1, h.2 ⟨true, [⟨0, none⟩]⟩ (by decide) rfl⟩

/-- C4: the fields actually used for the upstream request and for the
cache key always contain the Created field: the fix-up leaves a fields
string containing Created unchanged having it as a substring, appends
a comma and Created when it is missing, and the whole fetch behaves as
if the caller had passed the fixed-up fields. -/
theorem fetch_data_created_field (fields : List Char) :
    ("Created".toList <:+: requestFields fields) ∧
    (¬ ("Created".toList <:+: fields) →
      requestFields fields = fields ++ ",Created".toList) ∧
    (∀ (st : SessionState) (year : Int) (query respText : List Char)
      (use_cache : Bool) (now : Int),
      fetch_data st year query fields use_cache respText now =
        fetch_data st year query (requestFields fields) use_cache respText now) := by
  have hsub : "Created".toList <:+: requestFields fields := by
    unfold requestFields
    split_ifs with h
    · exact h
    · refine ⟨fields ++ [','], [], ?_⟩
      have hcl : ",Created".toList = ',' :: "Created".toList := rfl
      rw [hcl]
      simp
  have hidem : requestFields (requestFields fields) = requestFields fields := by
    conv_lhs => rw [requestFields]
    rw [if_pos hsub]
  refine ⟨hsub, fun h => ?_, fun st year query respText uc now => ?_⟩
  · unfold requestFields
    rw [if_neg h]
  · simp only [fetch_data, hidem]

/-- Witness for C4 on the concrete fields string Owner. -/
theorem fetch_data_created_field_witness :
    ("Created".toList <:+: requestFields "Owner".toList) ∧
    requestFields "Owner".toList = "Owner".toList ++ ",Created".toList := by
  have h := fetch_data_created_field "Owner".toList
  exact ⟨h.1, h.2.1 (by decide)⟩

/-- Elements produced by splitting on a separator never contain the
separator. -/
theorem not_mem_of_mem_splitOn {α : Type} [DecidableEq α] (sep : α) (xs : List α) :
    ∀ l ∈ xs.splitOn sep, sep ∉ l := by
  have key : ∀ (ys : List α), ∀ l ∈ ys.splitOnP (· == sep), sep ∉ l := by
    intro ys
    induction ys with
    | nil => intro l hl; simp [List.splitOnP_nil] at hl; simp [hl]
    | cons c cs ih =>
        intro l hl
        rw [List.splitOnP_cons] at hl
        by_cases hc : (c == sep) = true
        · rw [if_pos hc] at hl
          rcases List.mem_cons.mp hl with h | h
          · simp [h]
          · exact ih l h
        · rw [if_neg hc] at hl
          rcases hsp : cs.splitOnP (· == sep) with _ | ⟨hd, tl⟩
          · exact absurd hsp (List.splitOnP_ne_nil _ cs)
          · rw [hsp] at hl
            simp only [List.modifyHead] at hl
            rcases List.mem_cons.mp hl with h | h
            · subst h
              intro hmem
              rcases List.mem_cons.mp hmem with h | h
              · exact hc (by simp [h])
              · exact ih hd (by rw [hsp]; exact List.mem_cons_self hd tl) h
            · exact ih l (by rw [hsp]; exact List.mem_cons_of_mem hd h)
  exact key xs

/-- Sorting character lists with the decidable lexicographic order
produces a sorted list. -/
theorem mergeSort_le_sorted (l : List (List Char)) :
    List.Sorted (fun a b : List Char => a ≤ b) (l.mergeSort (fun a b => decide (a ≤ b))) := by
  have htrans : ∀ a b c : List Char,
      decide (a ≤ b) = true → decide (b ≤ c) = true → decide (a ≤ c) = true := by
    intro a b c hab hbc
    simp only [decide_eq_true_eq] at hab hbc ⊢
    exact le_trans hab hbc
  have htotal : ∀ a b : List Char, (decide (a ≤ b) || decide (b ≤ a)) = true := by
    intro a b
    simp only [Bool.or_eq_true, decide_eq_true_eq]
    exact le_total a b
  have hpair := List.sorted_mergeSort htrans htotal l
  exact hpair.imp (fun hab => by simpa using hab)

/-- C3: domain standardization is idempotent on every string, collapses
the two textual orders of a two-component domain to one value, and
sends a missing domain to the fixed label. -/
theorem standardize_domain_spec :
    (∀ x : List Char,
      standardize_domain (some (standardize_domain (some x))) =
        standardize_domain (some x)) ∧
    standardize_domain (some "B,A".toList) = standardize_domain (some "A,B".toList) ∧
    standardize_domain none = "Unknown Domain".toList := by
  refine ⟨?_, ?_, rfl⟩
  · intro x
    simp only [standardize_domain]
    set parts := x.splitOn ',' with hparts
    set sorted := parts.mergeSort (fun a b => decide (a ≤ b)) with hsorted
    have hfree : ∀ l ∈ parts, ',' ∉ l := not_mem_of_mem_splitOn ',' x
    have hfree2 : ∀ l ∈ sorted, ',' ∉ l := by
      intro l hl
      exact hfree l ((List.mergeSort_perm parts _).mem_iff.mp hl)
    have hne : sorted ≠ [] := by
      intro hcon
      have := (List.mergeSort_perm parts (fun a b => decide (a ≤ b))).length_eq
      rw [← hsorted, hcon] at this
      exact List.splitOnP_ne_nil _ x (List.length_eq_zero.mp this.symm)
    have hsplit : ([','].intercalate sorted).splitOn ',' = sorted :=
      List.splitOn_intercalate sorted ',' hfree2 hne
    rw [hsplit]
    rw [List.mergeSort_eq_self (mergeSort_le_sorted parts)]
  · simp only [standardize_domain]
    have hperm : ("B,A".toList.splitOn ',').Perm ("A,B".toList.splitOn ',') := by
      have h1 : "B,A".toList.splitOn ',' = ["B".toList, "A".toList] := by decide
      have h2 : "A,B".toList.splitOn ',' = ["A".toList, "B".toList] := by decide
      rw [h1, h2]
      decide
    have heq :
        ("B,A".toList.splitOn ',').mergeSort (fun a b => decide (a ≤ b)) =
        ("A,B".toList.splitOn ',').mergeSort (fun a b => decide (a ≤ b)) := by
      refine List.eq_of_perm_of_sorted ?_ (mergeSort_le_sorted _) (mergeSort_le_sorted _)
      exact ((List.mergeSort_perm _ _).trans hperm).trans (List.mergeSort_perm _ _).symm
    rw [heq]

/-- Lookup after a dict assignment of the same key yields the value
just stored. -/
theorem dictGet_setEntry {K V : Type} [DecidableEq K] (k : K) (v : V) (l : List (K × V)) :
    dictGet k (setEntry k v l) = some v := by
  induction l with
  | nil => simp [setEntry, dictGet]
  | cons p rest ih =>
      obtain ⟨k0, v0⟩ := p
      by_cases h : k0 = k
      · simp [setEntry, h, dictGet]
      · simp [setEntry, h, dictGet, ih]

/-- C5: when the freshly parsed table is empty the session state is
returned unchanged for either cache mode; with the cache disabled the
call neither consults nor writes the cache, returning exactly the
parsed response and the untouched state; and a cache-enabled call that
misses and parses a non-empty table stores exactly that table under
the computed key with the current time as its timestamp. -/
theorem fetch_data_cache_frame (st : SessionState) (year : Int)
    (query fields respText : List Char) (now : Int) :
    (parseResponse respText = [] →
      ∀ use_cache : Bool,
        (fetch_data st year query fields use_cache respText now).2 = st) ∧
    fetch_data st year query fields false respText now = (parseResponse respText, st) ∧
    (get_cached_data st (keyString year query (requestFields fields) st.username) now = none →
      parseResponse respText ≠ [] →
      fetch_data st year query fields true respText now =
        (parseResponse respText,
          set_cached_data st (keyString year query (requestFields fields) st.username)
            (parseResponse respText) now) ∧
      dictGet (keyString year query (requestFields fields) st.username)
        (set_cached_data st (keyString year query (requestFields fields) st.username)
          (parseResponse respText) now).data_cache = some (parseResponse respText) ∧
      dictGet (keyString year query (requestFields fields) st.username)
        (set_cached_data st (keyString year query (requestFields fields) st.username)
          (parseResponse respText) now).cache_timestamps = some now) := by
  refine ⟨?_, ?_, ?_⟩
  · intro hpar use_cache
    cases use_cache with
    | false => simp [fetch_data]
    | true =>
        rcases hc : get_cached_data st
            (keyString year query (requestFields fields) st.username) now with _ | df
        · simp [fetch_data, hc, hpar]
        · simp [fetch_data, hc]
  · simp [fetch_data]
  · intro hnone hne
    refine ⟨by simp [fetch_data, hnone, hne], ?_, ?_⟩
    · simp [set_cached_data, dictGet_setEntry]
    · simp [set_cached_data, dictGet_setEntry]

/-- Assignment into a dict never produces the empty dict. -/
theorem setEntry_ne_nil {K V : Type} [DecidableEq K] (k : K) (v : V) (l : List (K × V)) :
    setEntry k v l ≠ [] := by
  cases l with
  | nil => simp [setEntry]
  | cons p rest =>
      obtain ⟨k0, v0⟩ := p
      simp only [setEntry]
      split_ifs <;> simp

/-- The record-building fold yields an empty dict exactly when the
accumulator was empty and no line carried the separator. -/
theorem foldl_record_eq_nil (lines : List (List Char)) :
    ∀ acc : Rec0,
      lines.foldl (fun record line =>
        match splitFirstColonSpace line with
        | some kv => setEntry (pyStrip kv.1) (pyStrip kv.2) record
        | none => record) acc = []
      ↔ (acc = [] ∧ ∀ line ∈ lines, splitFirstColonSpace line = none) := by
  induction lines with
  | nil => intro acc; simp
  | cons l ls ih =>
      intro acc
      rcases hs : splitFirstColonSpace l with _ | kv
      · rw [List.foldl_cons]
        simp only [hs]
        rw [ih acc]
        simp [hs]
      · rw [List.foldl_cons]
        simp only [hs]
        rw [ih _]
        have hne := setEntry_ne_nil (pyStrip kv.1) (pyStrip kv.2) acc
        simp [hne, hs]

/-- A record is empty exactly when none of its lines carried the
colon-space separator. -/
theorem buildRecord_eq_nil_iff (lines : List (List Char)) :
    buildRecord lines = [] ↔ ∀ line ∈ lines, splitFirstColonSpace line = none := by
  unfold buildRecord
  rw [foldl_record_eq_nil]
  simp

/-- A filterMap keeps exactly as many elements as the filter by the
definedness of its function. -/
theorem length_filterMap_eq_length_filter {β γ : Type} (g : β → Option γ) (qb : β → Bool)
    (h : ∀ e, (g e).isSome = qb e) (l : List β) :
    (l.filterMap g).length = (l.filter qb).length := by
  induction l with
  | nil => rfl
  | cons e es ih =>
      rcases hg : g e with _ | v
      · have hq : qb e = false := by rw [← h e, hg]; rfl
        simp [List.filterMap_cons, List.filter_cons, hg, hq, ih]
      · have hq : qb e = true := by rw [← h e, hg]; rfl
        simp [List.filterMap_cons, List.filter_cons, hg, hq, ih]

/-- C7: the parser emits exactly one record per dash-delimited segment
containing at least one line with the colon-space separator, the empty
input yields an empty table, and an input none of whose lines carries
the separator yields an empty table; the parser is a total function,
so malformed lines are skipped without any error. -/
theorem parse_response_segments (text : List Char) :
    (parseResponse text).length =
      ((splitOnDashes text).filter
        (fun entry => ((pyStrip entry).splitOn '\n').any
          (fun line => (splitFirstColonSpace line).isSome))).length ∧
    parseResponse [] = [] ∧
    ((∀ entry ∈ splitOnDashes text, ∀ line ∈ (pyStrip entry).splitOn '\n',
        splitFirstColonSpace line = none) → parseResponse text = []) := by
  refine ⟨?_, rfl, ?_⟩
  · unfold parseResponse
    apply length_filterMap_eq_length_filter
    intro entry
    by_cases hr : buildRecord ((pyStrip entry).splitOn '\n') = []
    · simp only [hr, if_true, Option.isSome_none]
      symm
      rw [List.any_eq_false]
      intro line hl
      rw [(buildRecord_eq_nil_iff _).mp hr line hl]
      simp
    · simp only [if_neg hr, Option.isSome_some]
      symm
      rw [List.any_eq_true]
      by_contra hcon
      push_neg at hcon
      apply hr
      rw [buildRecord_eq_nil_iff]
      intro line hl
      have hline := hcon line hl
      rcases hsp : splitFirstColonSpace line with _ | kv
      · rfl
      · rw [hsp] at hline
        simp at hline
  · intro hall
    rw [parseResponse, List.filterMap_eq_nil_iff]
    intro entry he
    have hb : buildRecord ((pyStrip entry).splitOn '\n') = [] :=
      (buildRecord_eq_nil_iff _).mpr (hall entry he)
    simp [hb]

/-- Witness for C7 on a concrete separator-free two-segment input. -/
theorem parse_response_segments_witness :
    parseResponse "no colon here--second part".toList = [] :=
  (parse_response_segments "no colon here--second part".toList).2.2 (by decide)

/-- C10: the business-hours duration is NaN exactly when a timestamp
is missing, is defined and non-negative on every pair of present
timestamps, equals zero whenever the start is not before the end, and
a ticket whose Started precedes its Created is therefore categorized
Within first hour rather than Not set. -/
theorem compute_business_hours_spec (holiday : Int → Bool) (s e : TS)
    (hs1 : s.sec ≤ 86400) (he0 : 0 ≤ e.sec) :
    compute_business_hours holiday none none = none ∧
    compute_business_hours holiday none (some e) = none ∧
    compute_business_hours holiday (some s) none = none ∧
    (∃ q : ℚ, compute_business_hours holiday (some s) (some e) = some q ∧ 0 ≤ q) ∧
    (tsLe e s →
      compute_business_hours holiday (some s) (some e) = some 0 ∧
      categorize_time (compute_business_hours holiday (some s) (some e)) =
        "Within first hour") := by
  refine ⟨rfl, rfl, rfl, ?_, ?_⟩
  · dsimp only [compute_business_hours]
    by_cases h1 : tsLe e s
    · exact ⟨0, by simp [h1], le_refl 0⟩
    · rw [if_neg h1]
      by_cases h2 : s.day = e.day
      · rw [if_pos h2]
        refine ⟨_, rfl, ?_⟩
        have hsec : s.sec ≤ e.sec := by
          unfold tsLe at h1
          push_neg at h1
          exact le_of_lt (h1.2 h2.symm)
        have hinner :
            (0:ℚ) ≤ (if isBusinessDay holiday s.day then (e.sec - s.sec) / 60 else 0) := by
          split_ifs with hb
          · exact div_nonneg (by linarith) (by norm_num)
          · exact le_refl 0
        exact div_nonneg hinner (by norm_num)
      · rw [if_neg h2]
        refine ⟨_, rfl, ?_⟩
        have t1 :
            (0:ℚ) ≤ (if isBusinessDay holiday s.day then ((86400:ℚ) - s.sec) / 60 else 0) := by
          split_ifs with hb
          · exact div_nonneg (by linarith) (by norm_num)
          · exact le_refl 0
        have t2 :
            (0:ℚ) ≤ (if isBusinessDay holiday e.day then (e.sec - 0) / 60 else 0) := by
          split_ifs with hb
          · exact div_nonneg (by linarith) (by norm_num)
          · exact le_refl 0
        have t3 :
            (0:ℚ) ≤ (businessDaysBetween holiday (s.day + 1) e.day : ℚ) * (24 * 60) := by
          positivity
        exact div_nonneg (by linarith) (by norm_num)
  · intro hle
    have h0 : compute_business_hours holiday (some s) (some e) = some 0 := by
      dsimp only [compute_business_hours]
      rw [if_pos hle]
    refine ⟨h0, ?_⟩
    rw [h0]
    norm_num [categorize_time]

/-- Witness for C10: a ticket started half an hour before it was
created gets business-hours zero and lands in Within first hour. -/
theorem compute_business_hours_spec_witness :
    compute_business_hours (fun _ => false) (some ⟨10, 3600⟩) (some ⟨10, 1800⟩) = some 0 ∧
    categorize_time
      (compute_business_hours (fun _ => false) (some ⟨10, 3600⟩) (some ⟨10, 1800⟩)) =
      "Within first hour" :=
  (compute_business_hours_spec (fun _ => false) ⟨10, 3600⟩ ⟨10, 1800⟩
    (by norm_num) (by norm_num)).2.2.2.2
    (by unfold tsLe; norm_num)

/-- Membership in the company-set fold: a company is collected exactly
when it was already in the accumulator or occurs in some row. -/
theorem mem_companies_foldl (rows : List CRow) :
    ∀ (acc : Finset String) (c : String),
      c ∈ rows.foldl
        (fun s r => match r.company with | some x => insert x s | none => s) acc ↔
      c ∈ acc ∨ ∃ r ∈ rows, r.company = some c := by
  induction rows with
  | nil => intro acc c; simp
  | cons r rs ih =>
      intro acc c
      rw [List.foldl_cons]
      rcases hc : r.company with _ | x
      · simp only [hc]
        rw [ih]
        simp only [List.mem_cons]
        constructor
        · rintro (h | ⟨r2, hr2, h3⟩)
          · exact Or.inl h
          · exact Or.inr ⟨r2, Or.inr hr2, h3⟩
        · rintro (h | ⟨r2, hr2 | hr2, h3⟩)
          · exact Or.inl h
          · subst hr2; rw [hc] at h3; cases h3
          · exact Or.inr ⟨r2, hr2, h3⟩
      · simp only [hc]
        rw [ih]
        simp only [Finset.mem_insert, List.mem_cons]
        constructor
        · rintro ((h | h) | ⟨r2, hr2, h3⟩)
          · exact Or.inr ⟨r, Or.inl rfl, by rw [hc, h]⟩
          · exact Or.inl h
          · exact Or.inr ⟨r2, Or.inr hr2, h3⟩
        · rintro (h | ⟨r2, hr2 | hr2, h3⟩)
          · exact Or.inl (Or.inr h)
          · subst hr2
            rw [hc] at h3
            exact Or.inl (Or.inl (Option.some_inj.mp h3).symm)
          · exact Or.inr ⟨r2, hr2, h3⟩

/-- The key set of the company counter holds exactly the companies
occurring in some row with a present company cell. -/
theorem mem_process_companies_keys (rows : List CRow) (c : String) :
    c ∈ process_companies_keys rows ↔ ∃ r ∈ rows, r.company = some c := by
  unfold process_companies_keys
  rw [mem_companies_foldl]
  simp

/-- Membership in the integer range list. -/
theorem mem_intRange (a b x : Int) : x ∈ intRange a b ↔ a ≤ x ∧ x < b := by
  unfold intRange
  simp only [List.mem_map, List.mem_range]
  constructor
  · rintro ⟨i, hi, rfl⟩
    omega
  · intro h
    exact ⟨(x - a).toNat, by omega, by omega⟩

/-- Membership in a fold that unions a set per element. -/
theorem mem_union_fold (g : Int → Finset String) (ys : List Int) :
    ∀ (acc : Finset String) (c : String),
      c ∈ ys.foldl (fun acc yv => acc ∪ g yv) acc ↔
        c ∈ acc ∨ ∃ yv ∈ ys, c ∈ g yv := by
  induction ys with
  | nil => intro acc c; simp
  | cons yv ys ih =>
      intro acc c
      rw [List.foldl_cons, ih]
      simp only [Finset.mem_union, List.mem_cons]
      constructor
      · rintro ((h | h) | ⟨y2, hy2, h3⟩)
        · exact Or.inl h
        · exact Or.inr ⟨yv, Or.inl rfl, h⟩
        · exact Or.inr ⟨y2, Or.inr hy2, h3⟩
      · rintro (h | ⟨y2, hy2 | hy2, h3⟩)
        · exact Or.inl (Or.inl h)
        · subst hy2; exact Or.inl (Or.inr h3)
        · exact Or.inr ⟨y2, hy2, h3⟩

/-- The guarded per-year accumulation step equals a plain union: an
empty table contributes the empty company set. -/
theorem prev_year_step_eq (fetch : Int → CTable) (acc : Finset String) (yv : Int) :
    (let df := fetch yv
     if df.rows ≠ [] then acc ∪ process_companies_keys df.rows else acc) =
    acc ∪ process_companies_keys (fetch yv).rows := by
  dsimp only
  split_ifs with h
  · rfl
  · push_neg at h
    rw [h]
    simp [process_companies_keys]

/-- The month-mask of the quarter-mode prefix filter holds exactly on
rows whose parsed Created month is before the given start month. -/
theorem month_mask_iff (sm : Int) (r : CRow) :
    ((match r.created with
      | some d => decide ((d.month : Int) < sm)
      | none => false) = true) ↔
      ∃ d : DT, r.created = some d ∧ (d.month : Int) < sm := by
  rcases hc : r.created with _ | d <;> simp [hc]

/-- C8: the prior-company set is exactly the union of the distinct
company names over every year from the fixed start year up to but
excluding the period year, plus, in quarter mode, the companies of the
current-year tickets created in a month before the quarter start
month; and on the concrete example with companies A, B in the previous
year and B, C in the current year, the new customers are exactly C.
The month hypothesis records that parsed timestamps carry calendar
months of at least 1. -/
theorem fetch_all_previous_companies_spec (fetch : Int → CTable) (y q : Int)
    (hval : ∀ r ∈ (fetch y).rows, ∀ d : DT, r.created = some d → 1 ≤ d.month)
    (hq : 1 ≤ q) :
    (∀ c : String,
      c ∈ fetch_all_previous_companies fetch (.years y) ↔
        ∃ yr : Int, START_YEAR ≤ yr ∧ yr < y ∧
          ∃ r ∈ (fetch yr).rows, r.company = some c) ∧
    (∀ c : String,
      c ∈ fetch_all_previous_companies fetch (.quarters y q) ↔
        ((∃ yr : Int, START_YEAR ≤ yr ∧ yr < y ∧
            ∃ r ∈ (fetch yr).rows, r.company = some c) ∨
         ((fetch y).hasCreated = true ∧
           ∃ r ∈ (fetch y).rows, r.company = some c ∧
             ∃ d : DT, r.created = some d ∧ (d.month : Int) < (q - 1) * 3 + 1))) ∧
    new_companies_for_year exampleFetch 2024 = {"C"} := by
  have hfold : ∀ c : String,
      c ∈ (intRange START_YEAR y).foldl
        (fun previous_companies year =>
          let df := fetch year
          if df.rows ≠ [] then previous_companies ∪ process_companies_keys df.rows
          else previous_companies) ∅ ↔
      ∃ yr : Int, START_YEAR ≤ yr ∧ yr < y ∧
        ∃ r ∈ (fetch yr).rows, r.company = some c := by
    intro c
    simp only [prev_year_step_eq]
    rw [mem_union_fold]
    simp only [Finset.not_mem_empty, false_or]
    constructor
    · rintro ⟨yr, hyr, h3⟩
      rw [mem_intRange] at hyr
      rw [mem_process_companies_keys] at h3
      exact ⟨yr, hyr.1, hyr.2, h3⟩
    · rintro ⟨yr, h1, h2, h3⟩
      exact ⟨yr, (mem_intRange _ _ _).mpr ⟨h1, h2⟩, (mem_process_companies_keys _ _).mpr h3⟩
  refine ⟨?_, ?_, by decide⟩
  · intro c
    simp only [fetch_all_previous_companies]
    exact hfold c
  · intro c
    simp only [fetch_all_previous_companies]
    by_cases h1q : 1 < q
    · rw [if_pos h1q]
      by_cases hcnd : (fetch y).rows ≠ [] ∧ (fetch y).hasCreated = true
      · rw [if_pos hcnd]
        have hkeys : c ∈ process_companies_keys
            ((fetch y).rows.filter
              (fun r =>
                match r.created with
                | some d => decide ((d.month : Int) < (q - 1) * 3 + 1)
                | none => false)) ↔
            ∃ r ∈ (fetch y).rows, r.company = some c ∧
              ∃ d : DT, r.created = some d ∧ (d.month : Int) < (q - 1) * 3 + 1 := by
          rw [mem_process_companies_keys]
          constructor
          · rintro ⟨r, hr, hcomp⟩
            rw [List.mem_filter] at hr
            obtain ⟨hrm, hmask⟩ := hr
            rw [month_mask_iff] at hmask
            exact ⟨r, hrm, hcomp, hmask⟩
          · rintro ⟨r, hr, hcomp, hd⟩
            exact ⟨r, List.mem_filter.mpr ⟨hr, (month_mask_iff _ _).mpr hd⟩, hcomp⟩
        rw [Finset.mem_union, hfold c, hkeys]
        simp only [hcnd.2, true_and]
      · rw [if_neg hcnd]
        rw [hfold c]
        constructor
        · exact Or.inl
        · rintro (h | ⟨hcr, r, hr, hcomp, hd⟩)
          · exact h
          · exfalso
            apply hcnd
            refine ⟨?_, hcr⟩
            intro hnil
            rw [hnil] at hr
            exact absurd hr (List.not_mem_nil r)
    · rw [if_neg h1q]
      rw [hfold c]
      have hq1 : q = 1 := by omega
      constructor
      · exact Or.inl
      · rintro (h | ⟨hcr, r, hr, hcomp, d, hd, hm⟩)
        · exact h
        · exfalso
          have hmon := hval r hr d hd
          rw [hq1] at hm
          norm_num at hm
          omega

/-- The quarter filter with a valid range reduces to a mask over the
rows when the table is non-empty and carries the date column. -/
theorem quarterRows_eq_filter (df : DTable) (y : Int) (hrows : df.rows ≠ [])
    (hc : df.hasCreated = true) (sd ed : Int × Nat × Nat) (qq : Int)
    (hget : get_quarter_date_range y qq = some (sd, ed)) :
    quarterRows df y qq =
      df.rows.filter
        (fun t => inCreatedRange (dtOfDate sd) (dtOfDate (addOneDay ed)) t.created) := by
  unfold quarterRows filter_df_by_quarter
  rw [if_neg hrows, hget]
  simp [hc]

/-- C1 amended: for a fetched table carrying the date column, a row
with an unparseable Created value belongs to no quarter of the year,
and a row with a parsed Created value belongs to at least one of the
four quarters exactly when that value lies in the calendar year
(tickets the wide fetch window admits from December 31 of the previous
year belong to none), and never to two distinct quarters. -/
theorem quarter_partition_amended (df : DTable) (y : Int) (r : DTicket)
    (hc : df.hasCreated = true) (hr : r ∈ df.rows) :
    (r.created = none →
      r ∉ quarterRows df y 1 ∧ r ∉ quarterRows df y 2 ∧
      r ∉ quarterRows df y 3 ∧ r ∉ quarterRows df y 4) ∧
    (∀ d : DT, r.created = some d →
      ((dtLe ⟨y, 1, 1, 0, 0, 0⟩ d ∧ dtLt d ⟨y + 1, 1, 1, 0, 0, 0⟩) ↔
        (r ∈ quarterRows df y 1 ∨ r ∈ quarterRows df y 2 ∨
         r ∈ quarterRows df y 3 ∨ r ∈ quarterRows df y 4)) ∧
      ¬(r ∈ quarterRows df y 1 ∧ r ∈ quarterRows df y 2) ∧
      ¬(r ∈ quarterRows df y 1 ∧ r ∈ quarterRows df y 3) ∧
      ¬(r ∈ quarterRows df y 1 ∧ r ∈ quarterRows df y 4) ∧
      ¬(r ∈ quarterRows df y 2 ∧ r ∈ quarterRows df y 3) ∧
      ¬(r ∈ quarterRows df y 2 ∧ r ∈ quarterRows df y 4) ∧
      ¬(r ∈ quarterRows df y 3 ∧ r ∈ quarterRows df y 4)) := by
  have hrows : df.rows ≠ [] := List.ne_nil_of_mem hr
  have e1 := quarterRows_eq_filter df y hrows hc (y, 1, 1) (y, 3, 31) 1
    (by simp [get_quarter_date_range])
  have e2 := quarterRows_eq_filter df y hrows hc (y, 4, 1) (y, 6, 30) 2
    (by simp [get_quarter_date_range])
  have e3 := quarterRows_eq_filter df y hrows hc (y, 7, 1) (y, 9, 30) 3
    (by simp [get_quarter_date_range])
  have e4 := quarterRows_eq_filter df y hrows hc (y, 10, 1) (y, 12, 31) 4
    (by simp [get_quarter_date_range])
  have a1 : addOneDay (y, 3, 31) = (y, 4, 1) := by simp [addOneDay, daysInMonth]
  have a2 : addOneDay (y, 6, 30) = (y, 7, 1) := by simp [addOneDay, daysInMonth]
  have a3 : addOneDay (y, 9, 30) = (y, 10, 1) := by simp [addOneDay, daysInMonth]
  have a4 : addOneDay (y, 12, 31) = (y + 1, 1, 1) := by simp [addOneDay, daysInMonth]
  rw [a1] at e1
  rw [a2] at e2
  rw [a3] at e3
  rw [a4] at e4
  constructor
  · intro hnone
    refine ⟨?_, ?_, ?_, ?_⟩ <;>
      [rw [e1]; rw [e2]; rw [e3]; rw [e4]] <;>
      · intro hmem
        have := (List.mem_filter.mp hmem).2
        rw [hnone] at this
        exact absurd this (by simp [inCreatedRange])
  · intro d hd
    have m1 : r ∈ quarterRows df y 1 ↔
        (dtLe (dtOfDate (y, 1, 1)) d ∧ dtLt d (dtOfDate (y, 4, 1))) := by
      rw [e1, List.mem_filter]
      simp [hr, hd, inCreatedRange]
    have m2 : r ∈ quarterRows df y 2 ↔
        (dtLe (dtOfDate (y, 4, 1)) d ∧ dtLt d (dtOfDate (y, 7, 1))) := by
      rw [e2, List.mem_filter]
      simp [hr, hd, inCreatedRange]
    have m3 : r ∈ quarterRows df y 3 ↔
        (dtLe (dtOfDate (y, 7, 1)) d ∧ dtLt d (dtOfDate (y, 10, 1))) := by
      rw [e3, List.mem_filter]
      simp [hr, hd, inCreatedRange]
    have m4 : r ∈ quarterRows df y 4 ↔
        (dtLe (dtOfDate (y, 10, 1)) d ∧ dtLt d (dtOfDate (y + 1, 1, 1))) := by
      rw [e4, List.mem_filter]
      simp [hr, hd, inCreatedRange]
    rw [m1, m2, m3, m4]
    unfold dtOfDate dtLe dtLt
    dsimp only
    refine ⟨?_, ?_, ?_, ?_, ?_, ?_, ?_⟩ <;> omega

/-- C1 counterexample: a table containing one ticket created at noon
on December 31, 2022 is a legitimate fetch result for year 2023 (the
upstream predicate admits everything strictly after midnight of
December 31, 2022), the Created value parses, yet the ticket lies in
none of the four quarter results, so the union of the four quarters
fails to reproduce the table restricted to parseable Created values. -/
theorem quarter_union_counterexample :
    fetchedForYear boundaryDf 2023 = true ∧
    parseableRows boundaryDf = boundaryDf.rows ∧
    boundaryDf.rows ≠ [] ∧
    quarterRows boundaryDf 2023 1 = [] ∧
    quarterRows boundaryDf 2023 2 = [] ∧
    quarterRows boundaryDf 2023 3 = [] ∧
    quarterRows boundaryDf 2023 4 = [] := by decide

/-- Witness for the amended C1: a ticket created in mid May 2023 lands
in one of the four quarters of 2023. -/
theorem quarter_partition_amended_witness :
    (⟨1, some ⟨2023, 5, 15, 10, 0, 0⟩⟩ : DTicket) ∈ quarterRows inYearDf 2023 1 ∨
    (⟨1, some ⟨2023, 5, 15, 10, 0, 0⟩⟩ : DTicket) ∈ quarterRows inYearDf 2023 2 ∨
    (⟨1, some ⟨2023, 5, 15, 10, 0, 0⟩⟩ : DTicket) ∈ quarterRows inYearDf 2023 3 ∨
    (⟨1, some ⟨2023, 5, 15, 10, 0, 0⟩⟩ : DTicket) ∈ quarterRows inYearDf 2023 4 :=
  (((quarter_partition_amended inYearDf 2023 ⟨1, some ⟨2023, 5, 15, 10, 0, 0⟩⟩ rfl
      (by decide)).2 ⟨2023, 5, 15, 10, 0, 0⟩ rfl).1).mp (by decide)

/-- Witness for C8: company A, seen in 2023, is among the prior
companies computed for 2024. -/
theorem fetch_all_previous_companies_spec_witness :
    "A" ∈ fetch_all_previous_companies exampleFetch (.years 2024) :=
  ((fetch_all_previous_companies_spec exampleFetch 2024 2
      (by
        intro r hr d hd
        have hrows : (exampleFetch 2024).rows =
            [⟨some "B", some ⟨2024, 1, 10, 9, 0, 0⟩⟩,
             ⟨some "C", some ⟨2024, 6, 2, 9, 0, 0⟩⟩] := by decide
        rw [hrows] at hr
        rcases List.mem_cons.mp hr with h | h
        · subst h
          simp only [Option.some_inj] at hd
          subst hd
          norm_num
        · rcases List.mem_cons.mp h with h2 | h2
          · subst h2
            simp only [Option.some_inj] at hd
            subst hd
            norm_num
          · exact absurd h2 (List.not_mem_nil r))
      (by norm_num)).1 "A").mpr
    ⟨2023, by norm_num [START_YEAR], by norm_num,
      ⟨some "A", some ⟨2023, 2, 1, 9, 0, 0⟩⟩, by decide, rfl⟩

/-- Digit characters are never the underscore. -/
theorem digitChar_ne_underscore (d : Nat) (h : d < 10) : Nat.digitChar d ≠ '_' := by
  interval_cases d <;> decide

/-- The decimal rendering of a natural number contains no underscore. -/
theorem natChars_no_underscore (n : Nat) : '_' ∉ natChars n := by
  induction n using Nat.strong_induction_on with
  | _ n ih =>
      rw [natChars]
      split_ifs with h
      · intro hc
        simp only [List.mem_singleton] at hc
        exact digitChar_ne_underscore n h hc.symm
      · intro hc
        rcases List.mem_append.mp hc with h1 | h1
        · exact ih (n / 10) (Nat.div_lt_self (by omega) (by omega)) h1
        · simp only [List.mem_singleton] at h1
          exact digitChar_ne_underscore (n % 10) (Nat.mod_lt _ (by omega)) h1.symm

/-- The decimal rendering of an integer contains no underscore. -/
theorem intChars_no_underscore (i : Int) : '_' ∉ intChars i := by
  unfold intChars
  split_ifs with h
  · intro hc
    rcases List.mem_cons.mp hc with h1 | h1
    · exact absurd h1 (by decide)
    · exact natChars_no_underscore _ h1
  · exact natChars_no_underscore _

/-- Splitting a concatenation at an underscore separator is
unambiguous when the left parts are underscore-free. -/
theorem append_sep_inj (r s : List Char) :
    ∀ (a b : List Char), '_' ∉ a → '_' ∉ b →
      a ++ '_' :: r = b ++ '_' :: s → a = b ∧ r = s := by
  intro a
  induction a with
  | nil =>
      intro b ha hb h
      cases b with
      | nil => simp only [List.nil_append, List.cons.injEq] at h; exact ⟨rfl, h.2⟩
      | cons c cs =>
          simp only [List.nil_append, List.cons_append, List.cons.injEq] at h
          exact absurd (by rw [← h.1]; exact List.mem_cons_self _ _ : '_' ∈ c :: cs) hb
  | cons x xs ih =>
      intro b ha hb h
      cases b with
      | nil =>
          simp only [List.cons_append, List.nil_append, List.cons.injEq] at h
          exact absurd (by rw [h.1]; exact List.mem_cons_self _ _ : '_' ∈ x :: xs) ha
      | cons c cs =>
          simp only [List.cons_append, List.cons.injEq] at h
          obtain ⟨hx, hrest⟩ := h
          have ha2 : '_' ∉ xs := fun hm => ha (List.mem_cons_of_mem _ hm)
          have hb2 : '_' ∉ cs := fun hm => hb (List.mem_cons_of_mem _ hm)
          obtain ⟨he, hr⟩ := ih cs ha2 hb2 hrest
          exact ⟨by rw [hx, he], hr⟩

/-- C6 counterexample: two parameter tuples with distinct acting users
produce the same key string handed to md5 (the underscore joints are
ambiguous), hence the same md5 digest and the same cache key, so
distinct users can share a cache entry. -/
theorem cache_key_user_collision :
    keyString 1 "q".toList "c".toList "a_b".toList =
      keyString 1 "q".toList "c_a".toList "b".toList ∧
    "a_b".toList ≠ "b".toList := by
  constructor
  · unfold keyString
    congr 1
  · decide

/-- C6 amended: two fetch requests under distinct acting users get
distinct cache-key strings whenever the query and fields strings
contain no underscore; the year needs no restriction because its
decimal rendering is underscore-free. -/
theorem cache_key_user_separation (y y' : Int) (q f u q' f' u' : List Char)
    (hq : '_' ∉ q) (hf : '_' ∉ f) (hq' : '_' ∉ q') (hf' : '_' ∉ f')
    (huser : u ≠ u') :
    keyString y q f u ≠ keyString y' q' f' u' := by
  intro h
  unfold keyString at h
  obtain ⟨h1, h2⟩ := append_sep_inj _ _ (intChars y) (intChars y')
    (intChars_no_underscore y) (intChars_no_underscore y') h
  obtain ⟨h3, h4⟩ := append_sep_inj _ _ q q' hq hq' h2
  obtain ⟨h5, h6⟩ := append_sep_inj _ _ f f' hf hf' h4
  exact huser h6

/-- Witness for the amended C6 on concrete underscore-free inputs. -/
theorem cache_key_user_separation_witness :
    keyString 2023 "a".toList "b".toList "alice".toList ≠
      keyString 2024 "a".toList "b".toList "bob".toList :=
  cache_key_user_separation 2023 2024 "a".toList "b".toList "alice".toList
    "a".toList "b".toList "bob".toList
    (by decide) (by decide) (by decide) (by decide) (by decide)

/-- Witness for C5: a cache-enabled call on an empty cache with a
one-record response stores the parsed table with the fresh timestamp. -/
theorem fetch_data_cache_frame_witness :
    fetch_data exampleState 2023 "q".toList "Owner".toList true exampleResponse 50 =
      (parseResponse exampleResponse,
        set_cached_data exampleState
          (keyString 2023 "q".toList (requestFields "Owner".toList) exampleState.username)
          (parseResponse exampleResponse) 50) ∧
    dictGet (keyString 2023 "q".toList (requestFields "Owner".toList) exampleState.username)
      (set_cached_data exampleState
        (keyString 2023 "q".toList (requestFields "Owner".toList) exampleState.username)
        (parseResponse exampleResponse) 50).data_cache = some (parseResponse exampleResponse) ∧
    dictGet (keyString 2023 "q".toList (requestFields "Owner".toList) exampleState.username)
      (set_cached_data exampleState
        (keyString 2023 "q".toList (requestFields "Owner".toList) exampleState.username)
        (parseResponse exampleResponse) 50).cache_timestamps = some 50 :=
  (fetch_data_cache_frame exampleState 2023 "q".toList "Owner".toList
    exampleResponse 50).2.2 rfl (by decide)
